import Mathlib

/-!
Verification of the prop-firm compliance analyzer
(`src/scripts/analyze-prop-firm.py`, called v1 below, and
`src/scripts/analyze-prop-firm-v2.py`, called v2 below).

Shallow embedding conventions:
* monetary values (Python floats) are modelled as exact rationals `ℚ`;
* a CSV row is a record of the five string fields the scripts read;
* Python exceptions escaping to the outer `except` are modelled by
  `Except.error`; a `continue` that skips a row is `Option.none`;
* `datetime.strptime(s, "%d/%m/%Y %H:%M:%S")` is modelled by `strptimeDMY`,
  which follows the field regexes used by CPython `_strptime` for the fixed
  format (ASCII digits) and the `datetime` constructor range checks;
* `dt.strftime("%Y-%m-%d")` day keys are modelled as `Date` triples, whose
  equality and lexicographic order coincide with those of the zero-padded
  key strings;
* Python's stable `list.sort(key=...)` is modelled by `List.insertionSort`
  with the (total, transitive) key order, which is a stable sort.
-/

/-- A raw CSV row: the five fields the scripts access
(`ID`, `Close Time`, `Profit`, `Commission`, `Swap`). -/
structure Row where
  id : String
  closeTime : String
  profit : String
  commission : String
  swap : String
deriving DecidableEq, Repr

/-! ### Python `float(...)` on strings, modelled into `ℚ` -/

/-- Numeric value of a list of ASCII digit characters. -/
def digitsToNat (ds : List Char) : Nat :=
  ds.foldl (fun n c => 10 * n + (c.toNat - '0'.toNat)) 0

/-- Parse the optional exponent part (`e`/`E`, optional sign, digits) of a
Python float literal; input is the remaining characters after the mantissa. -/
def parseExpPart : List Char → Option Int
  | [] => some 0
  | e :: rest =>
    if e = 'e' ∨ e = 'E' then
      let (neg, rest') := match rest with
        | '-' :: r => (true, r)
        | '+' :: r => (false, r)
        | r => (false, r)
      let ds := rest'.takeWhile Char.isDigit
      let tail := rest'.dropWhile Char.isDigit
      if ds = [] ∨ tail ≠ [] then none
      else some (if neg then -(digitsToNat ds : Int) else (digitsToNat ds : Int))
    else none

/-- Scale a rational by a power of ten (the exponent of a float literal). -/
def scalePow10 (q : ℚ) (e : Int) : ℚ :=
  if 0 ≤ e then q * (10 : ℚ) ^ e.toNat else q / (10 : ℚ) ^ (-e).toNat

/-- Python `float(s)` for decimal literals (sign, digits, optional fraction,
optional exponent), returning `none` where CPython raises `ValueError`.
The special values `inf`/`nan` and surrounding whitespace accepted by CPython
are outside the inputs of interest and are treated as unparsable. -/
def parseFloat (s : String) : Option ℚ :=
  let cs := s.toList
  let (neg, cs) := match cs with
    | '-' :: rest => (true, rest)
    | '+' :: rest => (false, rest)
    | rest => (false, rest)
  let intDs := cs.takeWhile Char.isDigit
  let afterInt := cs.dropWhile Char.isDigit
  let core : Option ℚ :=
    match afterInt with
    | '.' :: rest =>
      let fracDs := rest.takeWhile Char.isDigit
      let afterFrac := rest.dropWhile Char.isDigit
      if intDs = [] ∧ fracDs = [] then none
      else
        match parseExpPart afterFrac with
        | none => none
        | some e =>
          some (scalePow10
            ((digitsToNat (intDs ++ fracDs) : ℚ) / (10 : ℚ) ^ fracDs.length) e)
    | rest =>
      if intDs = [] then none
      else
        match parseExpPart rest with
        | none => none
        | some e => some (scalePow10 (digitsToNat intDs : ℚ) e)
  core.map (fun q => if neg then -q else q)

/-- `float(row[field] or 0)`: an empty field is the falsy string, giving
`float(0) = 0`; otherwise `float` either parses the text or raises
`ValueError`, which propagates to the outer catch-all. -/
def floatField (s : String) : Except String ℚ :=
  if s = "" then .ok 0
  else match parseFloat s with
    | some q => .ok q
    | none => .error ("could not convert string to float: " ++ s)

/-! ### `datetime.strptime` for the fixed format `%d/%m/%Y %H:%M:%S` -/

/-- A parsed `datetime` value. -/
structure DateTime where
  year : Nat
  month : Nat
  day : Nat
  hour : Nat
  minute : Nat
  second : Nat
deriving DecidableEq, Repr

/-- The date portion of a timestamp: the `strftime("%Y-%m-%d")` day key,
modelled as the numeric triple (equality and lexicographic order agree with
the zero-padded key string). -/
structure Date where
  year : Nat
  month : Nat
  day : Nat
deriving DecidableEq, Repr

/-- `dt.strftime("%Y-%m-%d")`, as a `Date`. -/
def DateTime.date (dt : DateTime) : Date :=
  ⟨dt.year, dt.month, dt.day⟩

/-- Value of an ASCII digit. -/
def digitVal (c : Char) : Nat := c.toNat - '0'.toNat

/-- `%d` field: CPython regex `3[01]|[12]\d|0[1-9]|[1-9]| [1-9]`
(alternatives tried left to right). -/
def pDay : List Char → Option (Nat × List Char)
  | c1 :: c2 :: r =>
    if c1 = '3' ∧ (c2 = '0' ∨ c2 = '1') then some (30 + digitVal c2, r)
    else if (c1 = '1' ∨ c1 = '2') ∧ c2.isDigit then
      some (10 * digitVal c1 + digitVal c2, r)
    else if c1 = '0' ∧ c2.isDigit ∧ c2 ≠ '0' then some (digitVal c2, r)
    else if c1.isDigit ∧ c1 ≠ '0' then some (digitVal c1, c2 :: r)
    else if c1 = ' ' ∧ c2.isDigit ∧ c2 ≠ '0' then some (digitVal c2, r)
    else none
  | [c1] => if c1.isDigit ∧ c1 ≠ '0' then some (digitVal c1, []) else none
  | [] => none

/-- `%m` field: CPython regex `1[0-2]|0[1-9]|[1-9]| [1-9]`. -/
def pMonth : List Char → Option (Nat × List Char)
  | c1 :: c2 :: r =>
    if c1 = '1' ∧ (c2 = '0' ∨ c2 = '1' ∨ c2 = '2') then some (10 + digitVal c2, r)
    else if c1 = '0' ∧ c2.isDigit ∧ c2 ≠ '0' then some (digitVal c2, r)
    else if c1.isDigit ∧ c1 ≠ '0' then some (digitVal c1, c2 :: r)
    else if c1 = ' ' ∧ c2.isDigit ∧ c2 ≠ '0' then some (digitVal c2, r)
    else none
  | [c1] => if c1.isDigit ∧ c1 ≠ '0' then some (digitVal c1, []) else none
  | [] => none

/-- `%Y` field: exactly four digits. -/
def pYear : List Char → Option (Nat × List Char)
  | c1 :: c2 :: c3 :: c4 :: r =>
    if c1.isDigit ∧ c2.isDigit ∧ c3.isDigit ∧ c4.isDigit then
      some (1000 * digitVal c1 + 100 * digitVal c2 + 10 * digitVal c3 + digitVal c4, r)
    else none
  | _ => none

/-- `%H` field: CPython regex `2[0-3]|[0-1]\d|\d`. -/
def pHour : List Char → Option (Nat × List Char)
  | c1 :: c2 :: r =>
    if c1 = '2' ∧ (c2 = '0' ∨ c2 = '1' ∨ c2 = '2' ∨ c2 = '3') then
      some (20 + digitVal c2, r)
    else if (c1 = '0' ∨ c1 = '1') ∧ c2.isDigit then
      some (10 * digitVal c1 + digitVal c2, r)
    else if c1.isDigit then some (digitVal c1, c2 :: r)
    else none
  | [c1] => if c1.isDigit then some (digitVal c1, []) else none
  | [] => none

/-- `%M` field: CPython regex `[0-5]\d|\d`. -/
def pMinute : List Char → Option (Nat × List Char)
  | c1 :: c2 :: r =>
    if c1.isDigit ∧ digitVal c1 ≤ 5 ∧ c2.isDigit then
      some (10 * digitVal c1 + digitVal c2, r)
    else if c1.isDigit then some (digitVal c1, c2 :: r)
    else none
  | [c1] => if c1.isDigit then some (digitVal c1, []) else none
  | [] => none

/-- `%S` field: CPython regex `6[0-1]|[0-5]\d|\d` (leap seconds 60/61 are
matched by the regex but then rejected by the `datetime` constructor). -/
def pSecond : List Char → Option (Nat × List Char)
  | c1 :: c2 :: r =>
    if c1 = '6' ∧ (c2 = '0' ∨ c2 = '1') then some (60 + digitVal c2, r)
    else if c1.isDigit ∧ digitVal c1 ≤ 5 ∧ c2.isDigit then
      some (10 * digitVal c1 + digitVal c2, r)
    else if c1.isDigit then some (digitVal c1, c2 :: r)
    else none
  | [c1] => if c1.isDigit then some (digitVal c1, []) else none
  | [] => none

/-- A literal character of the format string. -/
def pLit (c : Char) : List Char → Option (List Char)
  | x :: r => if x = c then some r else none
  | [] => none

/-- Gregorian leap year, as used by `datetime`. -/
def isLeap (y : Nat) : Bool := (y % 4 = 0 ∧ y % 100 ≠ 0) ∨ y % 400 = 0

/-- Days in a month, as used by the `datetime` constructor's range check. -/
def daysInMonth (y m : Nat) : Nat :=
  if m = 2 then (if isLeap y then 29 else 28)
  else if m = 4 ∨ m = 6 ∨ m = 9 ∨ m = 11 then 30
  else 31

/-- `datetime.strptime(s, "%d/%m/%Y %H:%M:%S")`: `none` exactly where CPython
raises `ValueError` — regex mismatch, unconverted trailing data, or a value
rejected by the `datetime` constructor (year 0, day past month end, second
above 59). -/
def strptimeDMY (s : String) : Option DateTime := do
  let r0 := s.toList
  let (d, r1) ← pDay r0
  let r2 ← pLit '/' r1
  let (m, r3) ← pMonth r2
  let r4 ← pLit '/' r3
  let (y, r5) ← pYear r4
  let r6 ← pLit ' ' r5
  let (hh, r7) ← pHour r6
  let r8 ← pLit ':' r7
  let (mi, r9) ← pMinute r8
  let r10 ← pLit ':' r9
  let (ss, r11) ← pSecond r10
  match r11 with
  | [] =>
    if 1 ≤ y ∧ d ≤ daysInMonth y m ∧ ss ≤ 59 then
      some ⟨y, m, d, hh, mi, ss⟩
    else none
  | _ => none

/-- v2 `parse_datetime`: `strptime` with the `ValueError` caught, returning
`None` on failure. -/
def parse_datetime (s : String) : Option DateTime := strptimeDMY s

/-- v1 `parse_date`: `strptime` followed by `strftime("%Y-%m-%d")`; the
`ValueError` is *not* caught and propagates to the outer catch-all. -/
def parse_date (s : String) : Except String Date :=
  match strptimeDMY s with
  | some dt => .ok dt.date
  | none => .error ("time data " ++ s ++ " does not match format %d/%m/%Y %H:%M:%S")

/-! ### Orders on timestamps and day keys (Python `datetime` and string
comparison of `YYYY-MM-DD` keys are both lexicographic) -/

/-- Strict lexicographic order on timestamps (`datetime.__lt__`). -/
def DateTime.LtP (a b : DateTime) : Prop :=
  a.year < b.year ∨ (a.year = b.year ∧
    (a.month < b.month ∨ (a.month = b.month ∧
      (a.day < b.day ∨ (a.day = b.day ∧
        (a.hour < b.hour ∨ (a.hour = b.hour ∧
          (a.minute < b.minute ∨ (a.minute = b.minute ∧
            a.second < b.second)))))))))

/-- Non-strict order on timestamps. -/
def DateTime.LeP (a b : DateTime) : Prop := DateTime.LtP a b ∨ a = b

instance (a b : DateTime) : Decidable (DateTime.LtP a b) := by
  unfold DateTime.LtP; infer_instance

instance (a b : DateTime) : Decidable (DateTime.LeP a b) := by
  unfold DateTime.LeP; infer_instance

/-- Strict lexicographic order on day keys (`"YYYY-MM-DD"` string order). -/
def Date.LtP (a b : Date) : Prop :=
  a.year < b.year ∨ (a.year = b.year ∧
    (a.month < b.month ∨ (a.month = b.month ∧ a.day < b.day)))

/-- Non-strict order on day keys. -/
def Date.LeP (a b : Date) : Prop := Date.LtP a b ∨ a = b

instance (a b : Date) : Decidable (Date.LtP a b) := by
  unfold Date.LtP; infer_instance

instance (a b : Date) : Decidable (Date.LeP a b) := by
  unfold Date.LeP; infer_instance

/-! ### Normalized trade records -/

/-- v2 trade record (`{'dt', 'date_str', 'net_pnl', 'id'}`). -/
structure TradeV2 where
  dt : DateTime
  dateStr : Date
  netPnl : ℚ
  id : String
deriving DecidableEq, Repr

/-- v1 trade record (`{'id', 'net_pnl', 'time'}`); the day key is carried
alongside as the grouping key computed by `parse_date`. -/
structure TradeV1 where
  id : String
  netPnl : ℚ
  time : String
deriving DecidableEq, Repr

/-- One iteration of v2's row loop: `.ok none` is a `continue` (the `Total`
sentinel, an empty close time, or an unparsable close time), `.ok (some t)`
appends a trade, `.error` is a float `ValueError` escaping the loop. -/
def rowToTradeV2 (row : Row) : Except String (Option TradeV2) :=
  if row.id = "Total" then .ok none
  else if row.closeTime = "" then .ok none
  else match parse_datetime row.closeTime with
  | none => .ok none
  | some dt =>
    match floatField row.profit with
    | .error e => .error e
    | .ok profit =>
      match floatField row.commission with
      | .error e => .error e
      | .ok commission =>
        match floatField row.swap with
        | .error e => .error e
        | .ok swap =>
          .ok (some ⟨dt, dt.date, profit + commission + swap, row.id⟩)

/-- v2's row loop over the whole file, collecting `all_trades`. -/
def readTradesV2 : List Row → Except String (List TradeV2)
  | [] => .ok []
  | row :: rest =>
    match rowToTradeV2 row with
    | .error e => .error e
    | .ok none => readTradesV2 rest
    | .ok (some t) =>
      match readTradesV2 rest with
      | .error e => .error e
      | .ok ts => .ok (t :: ts)

/-- One iteration of v1's row loop: unlike v2, `parse_date` is called before
the floats and raises (aborting the analysis) on an unparsable close time. -/
def rowToTradeV1 (row : Row) : Except String (Option (Date × TradeV1)) :=
  if row.id = "Total" then .ok none
  else if row.closeTime = "" then .ok none
  else match parse_date row.closeTime with
  | .error e => .error e
  | .ok day =>
    match floatField row.profit with
    | .error e => .error e
    | .ok profit =>
      match floatField row.commission with
      | .error e => .error e
      | .ok commission =>
        match floatField row.swap with
        | .error e => .error e
        | .ok swap =>
          .ok (some (day, ⟨row.id, profit + commission + swap, row.closeTime⟩))

/-- v1's row loop over the whole file. -/
def readTradesV1 : List Row → Except String (List (Date × TradeV1))
  | [] => .ok []
  | row :: rest =>
    match rowToTradeV1 row with
    | .error e => .error e
    | .ok none => readTradesV1 rest
    | .ok (some p) =>
      match readTradesV1 rest with
      | .error e => .error e
      | .ok ps => .ok (p :: ps)

/-! ### Grouping by day (a Python dict keyed by the day string: keys in
first-occurrence order, each bucket in append order) -/

/-- Append `t` to the bucket of key `d`, creating the bucket at the end if
the key is new — `trades_by_day.setdefault`-style insertion. -/
def insertDay {α : Type} (acc : List (Date × List α)) (d : Date) (t : α) :
    List (Date × List α) :=
  match acc with
  | [] => [(d, [t])]
  | (d0, ts) :: rest =>
    if d0 = d then (d0, ts ++ [t]) :: rest
    else (d0, ts) :: insertDay rest d t

/-- Group a list by its day key, preserving insertion order. -/
def dictGroupBy {α : Type} (key : α → Date) (l : List α) :
    List (Date × List α) :=
  l.foldl (fun acc t => insertDay acc (key t) t) []

/-! ### Configuration (the hardcoded constants at the top of both files) -/

/-- The configuration constants (`ACCOUNT_SIZE`, `DAILY_DD_PERCENT`),
parameterized so that statements about the limits can mention them. -/
structure Config where
  accountSize : ℚ
  dailyDDPercent : ℚ
deriving DecidableEq, Repr

/-- `DAILY_LIMIT = ACCOUNT_SIZE * (DAILY_DD_PERCENT / 100)`. -/
def DAILY_LIMIT (cfg : Config) : ℚ := cfg.accountSize * (cfg.dailyDDPercent / 100)

/-- `MAX_DD_LIMIT = ACCOUNT_SIZE * 0.08` (hardcoded in both files). -/
def MAX_DD_LIMIT (cfg : Config) : ℚ := cfg.accountSize * (8 / 100)

/-- The configuration both scripts hardcode: `ACCOUNT_SIZE = 5000`,
`DAILY_DD_PERCENT = 4`. -/
def theConfig : Config := ⟨5000, 4⟩

/-! ### Sorting (Python's stable `list.sort` / `sorted`) -/

/-- Sort key for v2's `all_trades.sort(key=lambda x: x['dt'])`. -/
def tradeLe (a b : TradeV2) : Prop := DateTime.LeP a.dt b.dt

instance (a b : TradeV2) : Decidable (tradeLe a b) := by
  unfold tradeLe; infer_instance

/-- Key order for `sorted(trades_by_day.keys())`. -/
def dayKeyLe {α : Type} (p q : Date × α) : Prop := Date.LeP p.1 q.1

instance {α : Type} (p q : Date × α) : Decidable (dayKeyLe p q) := by
  unfold dayKeyLe; infer_instance

/-- v2's chronological sort of the whole trade list (stable). -/
def sortTradesV2 (ts : List TradeV2) : List TradeV2 :=
  List.insertionSort tradeLe ts

/-! ### The two analyses -/

/-- A per-day line of v2's report. -/
structure DayResultV2 where
  date : Date
  netPnl : ℚ
  dayLoss : ℚ
  breached : Bool
deriving DecidableEq, Repr

/-- v2's report: per-day lines, lowest balance reached, max drawdown used,
and the printed verdict. -/
structure ReportV2 where
  dayResults : List DayResultV2
  minBalance : ℚ
  maxDrawdownUsed : ℚ
  violationFound : Bool
deriving DecidableEq, Repr

/-- v2's day grouping of the (already sorted) trade list, in sorted day
order (`sorted(trades_by_day.keys())`). -/
def v2DayGroups (ts : List TradeV2) : List (Date × List TradeV2) :=
  List.insertionSort dayKeyLe (dictGroupBy TradeV2.dateStr ts)

/-- One day of v2's daily loop: `day_pnl`, `day_loss`, strict breach test. -/
def dayResultV2 (cfg : Config) (d : Date) (ts : List TradeV2) : DayResultV2 :=
  let dayPnl := (ts.map TradeV2.netPnl).sum
  let dayLoss := if dayPnl < 0 then |dayPnl| else 0
  ⟨d, dayPnl, dayLoss, decide (dayLoss > DAILY_LIMIT cfg)⟩

/-- v2's trade-by-trade running-balance loop: starting from
`ACCOUNT_SIZE`, apply each trade's `net_pnl` and track the minimum. -/
def minBalanceV2 (cfg : Config) (ts : List TradeV2) : ℚ :=
  (ts.foldl
    (fun st t =>
      (st.1 + t.netPnl, if st.1 + t.netPnl < st.2 then st.1 + t.netPnl else st.2))
    (cfg.accountSize, cfg.accountSize)).2

/-- v2 `analyze_csv` after the CSV has been read into rows: normalize, sort
chronologically, run the trade-level max-drawdown loop and the day-level
daily loop, and combine the verdict. -/
def analyze_csv_v2 (cfg : Config) (rows : List Row) : Except String ReportV2 :=
  match readTradesV2 rows with
  | .error e => .error e
  | .ok ts0 =>
    let allTrades := sortTradesV2 ts0
    let minBalance := minBalanceV2 cfg allTrades
    let dayResults := (v2DayGroups allTrades).map (fun p => dayResultV2 cfg p.1 p.2)
    let maxDDUsed := cfg.accountSize - minBalance
    .ok ⟨dayResults, minBalance, maxDDUsed,
      dayResults.any DayResultV2.breached || decide (maxDDUsed > MAX_DD_LIMIT cfg)⟩

/-- A per-day line of v1's report (v1 also prints the day's start balance
and trade count). -/
structure DayResultV1 where
  date : Date
  startBalance : ℚ
  netPnl : ℚ
  tradeCount : Nat
  dayLoss : ℚ
  breached : Bool
deriving DecidableEq, Repr

/-- v1's report. -/
structure ReportV1 where
  dayResults : List DayResultV1
  minBalance : ℚ
  maxDrawdownUsed : ℚ
  violationFound : Bool
deriving DecidableEq, Repr

/-- v1's day grouping (input order within each day — v1 never sorts the
trades themselves), in sorted day order. -/
def v1DayGroups (pairs : List (Date × TradeV1)) : List (Date × List TradeV1) :=
  List.insertionSort dayKeyLe
    ((dictGroupBy Prod.fst pairs).map (fun p => (p.1, p.2.map Prod.snd)))

/-- v1's daily loop: running balance across days, one result per day. -/
def v1DayStep (cfg : Config) (st : ℚ × Bool × List DayResultV1)
    (p : Date × List TradeV1) : ℚ × Bool × List DayResultV1 :=
  let dayPnl := (p.2.map TradeV1.netPnl).sum
  let dayLoss := if dayPnl < 0 then |dayPnl| else 0
  let breached := decide (dayLoss > DAILY_LIMIT cfg)
  (st.1 + dayPnl, st.2.1 || breached,
    st.2.2 ++ [⟨p.1, st.1, dayPnl, p.2.length, dayLoss, breached⟩])

/-- v1's max-drawdown re-simulation: the balance is updated once per day
(`curr_bal += day_pnl`; the inner per-trade loop is `pass`), and the minimum
is checked only at those day boundaries. -/
def minBalanceV1 (cfg : Config) (groups : List (Date × List TradeV1)) : ℚ :=
  (groups.foldl
    (fun st p =>
      let dayPnl := (p.2.map TradeV1.netPnl).sum
      (st.1 + dayPnl, if st.1 + dayPnl < st.2 then st.1 + dayPnl else st.2))
    (cfg.accountSize, cfg.accountSize)).2

/-- v1 `analyze_csv` after the CSV has been read into rows. -/
def analyze_csv_v1 (cfg : Config) (rows : List Row) : Except String ReportV1 :=
  match readTradesV1 rows with
  | .error e => .error e
  | .ok pairs =>
    let groups := v1DayGroups pairs
    let dayLoop := groups.foldl (v1DayStep cfg) (cfg.accountSize, false, [])
    let minBalance := minBalanceV1 cfg groups
    let maxDDUsed := cfg.accountSize - minBalance
    .ok ⟨dayLoop.2.2, minBalance, maxDDUsed,
      dayLoop.2.1 || decide (maxDDUsed > MAX_DD_LIMIT cfg)⟩

/-- The order in which v1's evaluation visits trades: day by sorted day,
within each day in input order (v1 has no trade-level sort). -/
def v1TradeSequence (rows : List Row) : Except String (List TradeV1) :=
  match readTradesV1 rows with
  | .error e => .error e
  | .ok pairs => .ok ((v1DayGroups pairs).flatMap Prod.snd)


/-! ### Order facts for the key orders -/

theorem DateTime.dtLeP_total (a b : DateTime) : DateTime.LeP a b ∨ DateTime.LeP b a := by
  cases a; cases b
  simp only [DateTime.LeP, DateTime.LtP, DateTime.mk.injEq]
  omega

theorem DateTime.dtLeP_trans {a b c : DateTime} (hab : DateTime.LeP a b)
    (hbc : DateTime.LeP b c) : DateTime.LeP a c := by
  cases a; cases b; cases c
  simp only [DateTime.LeP, DateTime.LtP, DateTime.mk.injEq] at *
  omega

theorem Date.leP_total (a b : Date) : Date.LeP a b ∨ Date.LeP b a := by
  cases a; cases b
  simp only [Date.LeP, Date.LtP, Date.mk.injEq]
  omega

theorem Date.leP_trans {a b c : Date} (hab : Date.LeP a b)
    (hbc : Date.LeP b c) : Date.LeP a c := by
  cases a; cases b; cases c
  simp only [Date.LeP, Date.LtP, Date.mk.injEq] at *
  omega

theorem Date.ltP_ne {a b : Date} (h : Date.LtP a b) : a ≠ b := by
  cases a; cases b
  simp only [ne_eq, Date.LtP, Date.mk.injEq] at *
  omega

theorem Date.leP_ltP_absurd {a b : Date} (h : Date.LeP a b) (h' : Date.LtP b a) :
    False := by
  cases a; cases b
  simp only [Date.LeP, Date.LtP, Date.mk.injEq] at *
  omega

theorem Date.ltP_of_leP_of_ne {a b : Date} (h : Date.LeP a b) (hne : a ≠ b) :
    Date.LtP a b := by
  cases a; cases b
  simp only [ne_eq, Date.LeP, Date.LtP, Date.mk.injEq] at *
  omega

/-- The timestamp order refines the day-key order. -/
theorem DateTime.date_leP {a b : DateTime} (h : DateTime.LeP a b) :
    Date.LeP a.date b.date := by
  cases a; cases b
  simp only [DateTime.LeP, DateTime.LtP, DateTime.date, Date.LeP, Date.LtP,
    DateTime.mk.injEq, Date.mk.injEq] at *
  omega

instance : IsTotal TradeV2 tradeLe := ⟨fun a b => DateTime.dtLeP_total a.dt b.dt⟩

instance : IsTrans TradeV2 tradeLe :=
  ⟨fun _ _ _ hab hbc => DateTime.dtLeP_trans hab hbc⟩

instance {α : Type} : IsTotal (Date × α) dayKeyLe :=
  ⟨fun p q => Date.leP_total p.1 q.1⟩

instance {α : Type} : IsTrans (Date × α) dayKeyLe :=
  ⟨fun _ _ _ hab hbc => Date.leP_trans hab hbc⟩

/-! ### Dictionary-grouping lemmas -/

/-- First bucket stored under a key in an association list (dict lookup;
`[]` when the key is absent). -/
def bucketOf {α : Type} : List (Date × List α) → Date → List α
  | [], _ => []
  | (d0, bs) :: g, d => if d0 = d then bs else bucketOf g d

theorem bucketOf_insertDay {α : Type} (acc : List (Date × List α)) (d d' : Date)
    (t : α) :
    bucketOf (insertDay acc d t) d' =
      if d' = d then bucketOf acc d' ++ [t] else bucketOf acc d' := by
  induction acc with
  | nil =>
    by_cases h : d' = d
    · subst h; simp [insertDay, bucketOf]
    · have h2 : ¬ d = d' := fun hd => h hd.symm
      simp [insertDay, bucketOf, h, h2]
  | cons q rest ih =>
    obtain ⟨d0, bs⟩ := q
    by_cases h0 : d0 = d
    · subst h0
      by_cases h' : d' = d0
      · subst h'
        simp [insertDay, bucketOf]
      · have h2 : ¬ d0 = d' := fun hd => h' hd.symm
        simp [insertDay, bucketOf, h', h2]
    · by_cases h1 : d0 = d'
      · subst h1
        have hne : ¬ d0 = d := h0
        simp [insertDay, bucketOf, h0, hne]
      · simp [insertDay, bucketOf, h0, h1, ih]

theorem bucketOf_foldl_insertDay {α : Type} (key : α → Date) (l : List α) :
    ∀ (acc : List (Date × List α)) (d : Date),
      bucketOf (l.foldl (fun acc t => insertDay acc (key t) t) acc) d
        = bucketOf acc d ++ l.filter (fun a => decide (key a = d)) := by
  induction l with
  | nil => intro acc d; simp
  | cons a l ih =>
    intro acc d
    simp only [List.foldl_cons]
    rw [ih, bucketOf_insertDay]
    by_cases h : key a = d
    · rw [if_pos h.symm]
      simp [List.filter_cons, h, List.append_assoc]
    · rw [if_neg (fun hd => h hd.symm)]
      simp [List.filter_cons, h]

/-- Each bucket of the day dict holds exactly that day's elements, in input
order. -/
theorem bucketOf_dictGroupBy {α : Type} (key : α → Date) (l : List α) (d : Date) :
    bucketOf (dictGroupBy key l) d = l.filter (fun a => decide (key a = d)) := by
  rw [dictGroupBy, bucketOf_foldl_insertDay]
  rfl

theorem keys_insertDay {α : Type} (acc : List (Date × List α)) (d : Date) (t : α) :
    (insertDay acc d t).map Prod.fst =
      if d ∈ acc.map Prod.fst then acc.map Prod.fst
      else acc.map Prod.fst ++ [d] := by
  induction acc with
  | nil => simp [insertDay]
  | cons q rest ih =>
    obtain ⟨d0, bs⟩ := q
    by_cases h0 : d0 = d
    · subst h0
      simp [insertDay]
    · have h0' : ¬ d = d0 := fun h => h0 h.symm
      simp only [insertDay, if_neg h0, List.map_cons, ih]
      by_cases hmem : d ∈ rest.map Prod.fst
      · simp [List.mem_cons, hmem, h0']
      · simp [List.mem_cons, hmem, h0']

theorem keys_foldl_nodup {α : Type} (key : α → Date) (l : List α) :
    ∀ acc : List (Date × List α), (acc.map Prod.fst).Nodup →
      ((l.foldl (fun acc t => insertDay acc (key t) t) acc).map Prod.fst).Nodup := by
  induction l with
  | nil => intro acc h; simpa using h
  | cons a l ih =>
    intro acc h
    simp only [List.foldl_cons]
    apply ih
    rw [keys_insertDay]
    by_cases hmem : key a ∈ acc.map Prod.fst
    · simpa [hmem] using h
    · rw [if_neg hmem]
      simp [List.nodup_append, h, hmem]

/-- The day dict has no duplicate keys. -/
theorem keys_dictGroupBy_nodup {α : Type} (key : α → Date) (l : List α) :
    ((dictGroupBy key l).map Prod.fst).Nodup :=
  keys_foldl_nodup key l [] (by simp)

theorem mem_keys_foldl {α : Type} (key : α → Date) (l : List α) :
    ∀ (acc : List (Date × List α)) (d : Date),
      (d ∈ (l.foldl (fun acc t => insertDay acc (key t) t) acc).map Prod.fst ↔
        d ∈ acc.map Prod.fst ∨ d ∈ l.map key) := by
  induction l with
  | nil => intro acc d; simp
  | cons a l ih =>
    intro acc d
    simp only [List.foldl_cons, List.map_cons, List.mem_cons]
    rw [ih, keys_insertDay]
    by_cases hmem : key a ∈ acc.map Prod.fst
    · rw [if_pos hmem]
      constructor
      · rintro (h | h)
        · exact Or.inl h
        · exact Or.inr (Or.inr h)
      · rintro (h | h | h)
        · exact Or.inl h
        · exact Or.inl (by rw [h]; exact hmem)
        · exact Or.inr h
    · rw [if_neg hmem]
      simp only [List.mem_append, List.mem_singleton]
      constructor
      · rintro ((h | h) | h)
        · exact Or.inl h
        · exact Or.inr (Or.inl h)
        · exact Or.inr (Or.inr h)
      · rintro (h | h | h)
        · exact Or.inl (Or.inl h)
        · exact Or.inl (Or.inr h)
        · exact Or.inr h

/-- The day dict's key set is exactly the set of day keys occurring in the
input. -/
theorem mem_keys_dictGroupBy {α : Type} (key : α → Date) (l : List α) (d : Date) :
    d ∈ (dictGroupBy key l).map Prod.fst ↔ d ∈ l.map key := by
  rw [dictGroupBy, mem_keys_foldl]
  simp

theorem mem_assoc_eq_bucketOf {α : Type} :
    ∀ (g : List (Date × List α)), (g.map Prod.fst).Nodup →
      ∀ p ∈ g, p.2 = bucketOf g p.1 := by
  intro g
  induction g with
  | nil => intro _ p hp; cases hp
  | cons q rest ih =>
    obtain ⟨d0, bs⟩ := q
    intro hnd p hp
    simp only [List.map_cons, List.nodup_cons] at hnd
    rcases List.mem_cons.mp hp with h | h
    · subst h; simp [bucketOf]
    · have hk : p.1 ∈ rest.map Prod.fst := List.mem_map.mpr ⟨p, h, rfl⟩
      have hne : ¬ d0 = p.1 := fun hd => hnd.1 (hd ▸ hk)
      simp only [bucketOf, if_neg hne]
      exact ih hnd.2 p h

/-- A member of the day dict is a day key together with the filter of the
input by that key. -/
theorem mem_dictGroupBy_eq_filter {α : Type} (key : α → Date) (l : List α)
    {p : Date × List α} (hp : p ∈ dictGroupBy key l) :
    p.2 = l.filter (fun a => decide (key a = p.1)) := by
  rw [mem_assoc_eq_bucketOf _ (keys_dictGroupBy_nodup key l) p hp,
    bucketOf_dictGroupBy]

/-! ### Running-balance minimum: prefix characterization -/

/-- One step of the running-balance loops: apply a PnL to the balance and
update the tracked minimum. -/
def balStep (st : ℚ × ℚ) (p : ℚ) : ℚ × ℚ :=
  (st.1 + p, if st.1 + p < st.2 then st.1 + p else st.2)

/-- The balance reached after every prefix of the PnL sequence, including
the empty prefix (`scanl` of the running balance). -/
def prefixBalances (start : ℚ) (pnls : List ℚ) : List ℚ :=
  pnls.scanl (· + ·) start

/-- The minimum balance over all prefixes of the PnL sequence — the
specification-side "minimum over all trade prefixes of `accountSize` plus
the prefix sum of `netPnl`". -/
def prefixMin (start : ℚ) (pnls : List ℚ) : ℚ :=
  (prefixBalances start pnls).foldl min start

theorem if_lt_eq_min (x y : ℚ) : (if x < y then x else y) = min x y := by
  rcases lt_trichotomy x y with h | h | h
  · rw [if_pos h, min_eq_left h.le]
  · rw [h, if_neg (lt_irrefl y), min_self]
  · rw [if_neg (not_lt.mpr h.le), min_eq_right h.le]

theorem foldl_balStep_snd (l : List ℚ) :
    ∀ b m : ℚ,
      (l.foldl balStep (b, m)).2 = ((l.scanl (· + ·) b).tail).foldl min m := by
  induction l with
  | nil => intro b m; simp [List.scanl]
  | cons p rest ih =>
    intro b m
    simp only [List.foldl_cons, List.scanl, List.tail_cons, balStep]
    rw [ih]
    cases rest with
    | nil => simp [List.scanl, if_lt_eq_min, min_comm]
    | cons q rest' =>
      simp only [List.scanl, List.tail_cons, List.foldl_cons]
      rw [if_lt_eq_min, min_comm]

theorem scanl_eq_cons_tail (b : ℚ) (l : List ℚ) :
    l.scanl (· + ·) b = b :: (l.scanl (· + ·) b).tail := by
  cases l <;> simp [List.scanl]

/-- The running-balance loop computes exactly the prefix minimum. -/
theorem foldl_balStep_eq_prefixMin (A : ℚ) (l : List ℚ) :
    (l.foldl balStep (A, A)).2 = prefixMin A l := by
  rw [foldl_balStep_snd, prefixMin, prefixBalances, scanl_eq_cons_tail,
    List.foldl_cons, min_self]
  rfl

theorem foldl_min_le_init (l : List ℚ) : ∀ a : ℚ, l.foldl min a ≤ a := by
  induction l with
  | nil => intro a; simp
  | cons x l ih =>
    intro a
    simp only [List.foldl_cons]
    exact le_trans (ih (min a x)) (min_le_left a x)

theorem foldl_min_le_mem {x : ℚ} {l : List ℚ} (hx : x ∈ l) :
    ∀ a : ℚ, l.foldl min a ≤ x := by
  induction l with
  | nil => cases hx
  | cons y l ih =>
    intro a
    rcases List.mem_cons.mp hx with h | h
    · subst h
      simp only [List.foldl_cons]
      exact le_trans (foldl_min_le_init l (min a x)) (min_le_right a x)
    · exact ih h (min a y)

theorem foldl_min_mem (l : List ℚ) : ∀ a : ℚ, l.foldl min a = a ∨ l.foldl min a ∈ l := by
  induction l with
  | nil => intro a; exact Or.inl rfl
  | cons x l ih =>
    intro a
    simp only [List.foldl_cons]
    rcases ih (min a x) with h | h
    · rcases min_choice a x with hm | hm
      · exact Or.inl (h.trans hm)
      · exact Or.inr (List.mem_cons.mpr (Or.inl (h.trans hm)))
    · exact Or.inr (List.mem_cons.mpr (Or.inr h))

theorem head_mem_scanl (b : ℚ) (l : List ℚ) : b ∈ l.scanl (· + ·) b := by
  cases l <;> simp [List.scanl]

theorem mem_scanl_append (c : List ℚ) :
    ∀ (A x : ℚ) (R : List ℚ), x ∈ R.scanl (· + ·) (A + c.sum) →
      x ∈ (c ++ R).scanl (· + ·) A := by
  induction c with
  | nil =>
    intro A x R hx
    simpa using hx
  | cons p c' ih =>
    intro A x R hx
    simp only [List.cons_append, List.scanl]
    refine List.mem_cons.mpr (Or.inr ?_)
    apply ih (A + p) x R
    have : A + p + c'.sum = A + (p :: c').sum := by
      simp [List.sum_cons, add_assoc]
    rw [this]
    exact hx

/-- Every balance reached at a chunk boundary (running over chunk sums) is
also reached when running over the flattened per-element sequence. -/
theorem mem_scanl_sums (chunks : List (List ℚ)) :
    ∀ (A x : ℚ), x ∈ (chunks.map List.sum).scanl (· + ·) A →
      x ∈ chunks.flatten.scanl (· + ·) A := by
  induction chunks with
  | nil => intro A x hx; simpa using hx
  | cons c cs ih =>
    intro A x hx
    simp only [List.map_cons, List.scanl] at hx
    rcases List.mem_cons.mp hx with h | h
    · subst h
      rw [List.flatten_cons, scanl_eq_cons_tail]
      exact List.mem_cons.mpr (Or.inl rfl)
    · rw [List.flatten_cons]
      exact mem_scanl_append c A x cs.flatten (ih (A + c.sum) x h)

theorem prefixMin_le_init (A : ℚ) (l : List ℚ) : prefixMin A l ≤ A :=
  foldl_min_le_init _ A

theorem prefixMin_le_mem (A : ℚ) (l : List ℚ) {x : ℚ}
    (hx : x ∈ l.scanl (· + ·) A) : prefixMin A l ≤ x :=
  foldl_min_le_mem hx A

theorem prefixMin_cases (A : ℚ) (l : List ℚ) :
    prefixMin A l = A ∨ prefixMin A l ∈ l.scanl (· + ·) A :=
  foldl_min_mem _ A

/-! ### Decomposition of a day-sorted list into its day buckets -/

theorem flatten_map_nil {β γ : Type} (K : List γ) :
    (K.map (fun _ => ([] : List β))).flatten = [] := by
  induction K <;> simp [*]

/-- A list sorted by day key, all of whose keys occur in the strictly
ascending key list `K`, is the concatenation of its per-key filters in the
order of `K`. -/
theorem sorted_flatten_filter {α : Type} (key : α → Date) :
    ∀ (K : List Date) (l : List α),
      l.Pairwise (fun a b => Date.LeP (key a) (key b)) →
      K.Pairwise Date.LtP →
      (∀ a ∈ l, key a ∈ K) →
      l = (K.map (fun d => l.filter (fun a => decide (key a = d)))).flatten := by
  intro K
  induction K with
  | nil =>
    intro l _ _ hcov
    cases l with
    | nil => simp
    | cons a l => exact absurd (hcov a (List.mem_cons_self a l)) (List.not_mem_nil _)
  | cons d K' ihK =>
    intro l
    induction l with
    | nil =>
      intro _ _ _
      simp only [List.filter_nil]
      rw [flatten_map_nil]
    | cons a l2 ihl =>
      intro hsort hK hcov
      by_cases hd : key a = d
      · -- the head belongs to the first day: peel it off and recurse on the tail
        have hl2 : l2 = ((d :: K').map
            (fun d' => l2.filter (fun b => decide (key b = d')))).flatten :=
          ihl hsort.of_cons hK
            (fun b hb => hcov b (List.mem_cons.mpr (Or.inr hb)))
        have hK'ne : ∀ d' ∈ K', ¬ key a = d' := by
          intro d' hd'
          have hlt : Date.LtP d d' := List.rel_of_pairwise_cons hK hd'
          intro hkey
          exact Date.ltP_ne hlt (hd ▸ hkey)
        have hmapcong : K'.map (fun d' => (a :: l2).filter (fun b => decide (key b = d')))
            = K'.map (fun d' => l2.filter (fun b => decide (key b = d'))) := by
          apply List.map_congr_left
          intro d' hd'
          simp [List.filter_cons, hK'ne d' hd']
        simp only [List.map_cons, List.flatten_cons] at hl2
        rw [List.map_cons, List.flatten_cons, hmapcong,
          List.filter_cons_of_pos (by simpa using hd), List.cons_append, ← hl2]
      · -- no element has the first day key: drop that key and recurse
        have hne : ∀ b ∈ a :: l2, ¬ key b = d := by
          intro b hb
          rcases List.mem_cons.mp hb with h | h
          · subst h; exact hd
          · intro hkey
            have hle : Date.LeP (key a) (key b) := List.rel_of_pairwise_cons hsort h
            have hka : key a ∈ K' := by
              rcases List.mem_cons.mp (hcov a (List.mem_cons_self a l2)) with h' | h'
              · exact absurd h' hd
              · exact h'
            have hlt : Date.LtP d (key a) := List.rel_of_pairwise_cons hK hka
            exact Date.leP_ltP_absurd (hkey ▸ hle) hlt
        have hfilter : (a :: l2).filter (fun b => decide (key b = d)) = [] :=
          List.filter_eq_nil_iff.mpr (by intro b hb; simpa using hne b hb)
        have hcov' : ∀ b ∈ a :: l2, key b ∈ K' := by
          intro b hb
          rcases List.mem_cons.mp (hcov b hb) with h | h
          · exact absurd h (hne b hb)
          · exact h
        have := ihK (a :: l2) hsort hK.of_cons hcov'
        simp only [List.map_cons, List.flatten_cons, hfilter, List.nil_append]
        exact this

/-! ### Relating the two row loops -/

theorem rowToTradeV1_none_v2 {row : Row} (h : rowToTradeV1 row = .ok none) :
    rowToTradeV2 row = .ok none := by
  unfold rowToTradeV1 at h
  unfold rowToTradeV2
  by_cases hid : row.id = "Total"
  · simp [hid]
  · simp only [if_neg hid] at h ⊢
    by_cases hct : row.closeTime = ""
    · simp [hct]
    · simp only [if_neg hct] at h ⊢
      unfold parse_date at h
      unfold parse_datetime
      cases hdt : strptimeDMY row.closeTime with
      | none => simp
      | some dt =>
        rw [hdt] at h
        simp only at h
        cases hp : floatField row.profit with
        | error e => simp [hp] at h
        | ok p =>
          rw [hp] at h
          cases hc : floatField row.commission with
          | error e => simp [hc] at h
          | ok c =>
            rw [hc] at h
            cases hs : floatField row.swap with
            | error e => simp [hs] at h
            | ok s =>
              rw [hs] at h
              simp at h

theorem rowToTradeV1_some_v2 {row : Row} {d : Date} {t1 : TradeV1}
    (h : rowToTradeV1 row = .ok (some (d, t1))) :
    ∃ t2 : TradeV2, rowToTradeV2 row = .ok (some t2) ∧
      t2.dateStr = d ∧ t2.netPnl = t1.netPnl := by
  unfold rowToTradeV1 at h
  unfold rowToTradeV2
  by_cases hid : row.id = "Total"
  · simp [hid] at h
  · simp only [if_neg hid] at h ⊢
    by_cases hct : row.closeTime = ""
    · simp [hct] at h
    · simp only [if_neg hct] at h ⊢
      unfold parse_date at h
      unfold parse_datetime
      cases hdt : strptimeDMY row.closeTime with
      | none => rw [hdt] at h; simp at h
      | some dt =>
        rw [hdt] at h
        simp only at h ⊢
        cases hp : floatField row.profit with
        | error e => simp [hp] at h
        | ok p =>
          rw [hp] at h
          cases hc : floatField row.commission with
          | error e => simp [hc] at h
          | ok c =>
            rw [hc] at h
            cases hs : floatField row.swap with
            | error e => simp [hs] at h
            | ok s =>
              rw [hs] at h
              simp only [Except.ok.injEq, Option.some.injEq, Prod.mk.injEq] at h
              refine ⟨⟨dt, dt.date, p + c + s, row.id⟩, rfl, h.1, ?_⟩
              rw [← h.2]

/-- v1's reader succeeding forces v2's reader to succeed with, row for row,
the same day keys and net PnLs. -/
theorem readTradesV1_agree :
    ∀ (rows : List Row) (pairs : List (Date × TradeV1)),
      readTradesV1 rows = .ok pairs →
      ∃ ts : List TradeV2, readTradesV2 rows = .ok ts ∧
        pairs.map (fun p => (p.1, p.2.netPnl)) =
          ts.map (fun t => (t.dateStr, t.netPnl)) := by
  intro rows
  induction rows with
  | nil =>
    intro pairs h
    simp only [readTradesV1, Except.ok.injEq] at h
    subst h
    exact ⟨[], rfl, rfl⟩
  | cons row rest ih =>
    intro pairs h
    unfold readTradesV1 at h
    unfold readTradesV2
    cases hr : rowToTradeV1 row with
    | error e => rw [hr] at h; cases h
    | ok tOpt =>
      rw [hr] at h
      cases tOpt with
      | none =>
        obtain ⟨ts, hts, hmap⟩ := ih pairs h
        rw [rowToTradeV1_none_v2 hr, hts]
        exact ⟨ts, rfl, hmap⟩
      | some p =>
        obtain ⟨d, t1⟩ := p
        cases hrest : readTradesV1 rest with
        | error e => rw [hrest] at h; cases h
        | ok ps =>
          rw [hrest] at h
          simp only [Except.ok.injEq] at h
          obtain ⟨ts, hts, hmap⟩ := ih ps hrest
          obtain ⟨t2, ht2, hds, hpn⟩ := rowToTradeV1_some_v2 hr
          rw [ht2, hts]
          refine ⟨t2 :: ts, rfl, ?_⟩
          rw [← h]
          simp only [List.map_cons, hmap, hds, hpn]

theorem rowToTradeV2_dateStr {row : Row} {t : TradeV2}
    (h : rowToTradeV2 row = .ok (some t)) : t.dateStr = t.dt.date := by
  unfold rowToTradeV2 at h
  by_cases hid : row.id = "Total"
  · simp [hid] at h
  · simp only [if_neg hid] at h
    by_cases hct : row.closeTime = ""
    · simp [hct] at h
    · simp only [if_neg hct] at h
      cases hdt : parse_datetime row.closeTime with
      | none => rw [hdt] at h; cases h
      | some dt =>
        rw [hdt] at h
        cases hp : floatField row.profit with
        | error e => simp [hp] at h
        | ok p =>
          rw [hp] at h
          cases hc : floatField row.commission with
          | error e => simp [hc] at h
          | ok c =>
            rw [hc] at h
            cases hs : floatField row.swap with
            | error e => simp [hs] at h
            | ok s =>
              rw [hs] at h
              simp only [Except.ok.injEq, Option.some.injEq] at h
              rw [← h]

/-- Every trade produced by v2's reader carries its timestamp's date as its
day key. -/
theorem readTradesV2_dateStr :
    ∀ (rows : List Row) (ts : List TradeV2), readTradesV2 rows = .ok ts →
      ∀ t ∈ ts, t.dateStr = t.dt.date := by
  intro rows
  induction rows with
  | nil =>
    intro ts h
    simp only [readTradesV2, Except.ok.injEq] at h
    rw [← h]
    intro t ht
    cases ht
  | cons row rest ih =>
    intro ts h
    unfold readTradesV2 at h
    cases hr : rowToTradeV2 row with
    | error e => rw [hr] at h; cases h
    | ok tOpt =>
      rw [hr] at h
      cases tOpt with
      | none => exact ih ts h
      | some t0 =>
        cases hrest : readTradesV2 rest with
        | error e => rw [hrest] at h; cases h
        | ok ts' =>
          rw [hrest] at h
          simp only [Except.ok.injEq] at h
          rw [← h]
          intro t ht
          rcases List.mem_cons.mp ht with h' | h'
          · rw [h']; exact rowToTradeV2_dateStr hr
          · exact ih ts' hrest t h'

/-! ### Unfolding the two analyses on a successful read -/

theorem analyze_csv_v2_eq {cfg : Config} {rows : List Row} {ts : List TradeV2}
    (h : readTradesV2 rows = .ok ts) :
    analyze_csv_v2 cfg rows =
      .ok ⟨(v2DayGroups (sortTradesV2 ts)).map (fun p => dayResultV2 cfg p.1 p.2),
           minBalanceV2 cfg (sortTradesV2 ts),
           cfg.accountSize - minBalanceV2 cfg (sortTradesV2 ts),
           ((v2DayGroups (sortTradesV2 ts)).map
               (fun p => dayResultV2 cfg p.1 p.2)).any DayResultV2.breached
             || decide (cfg.accountSize - minBalanceV2 cfg (sortTradesV2 ts) >
                 MAX_DD_LIMIT cfg)⟩ := by
  unfold analyze_csv_v2
  rw [h]

theorem analyze_csv_v1_eq {cfg : Config} {rows : List Row}
    {pairs : List (Date × TradeV1)} (h : readTradesV1 rows = .ok pairs) :
    analyze_csv_v1 cfg rows =
      .ok ⟨((v1DayGroups pairs).foldl (v1DayStep cfg) (cfg.accountSize, false, [])).2.2,
           minBalanceV1 cfg (v1DayGroups pairs),
           cfg.accountSize - minBalanceV1 cfg (v1DayGroups pairs),
           ((v1DayGroups pairs).foldl (v1DayStep cfg) (cfg.accountSize, false, [])).2.1
             || decide (cfg.accountSize - minBalanceV1 cfg (v1DayGroups pairs) >
                 MAX_DD_LIMIT cfg)⟩ := by
  unfold analyze_csv_v1
  rw [h]

/-! ### The two running-balance loops as prefix minima -/

theorem minBalanceV2_eq_prefixMin (cfg : Config) (S : List TradeV2) :
    minBalanceV2 cfg S = prefixMin cfg.accountSize (S.map TradeV2.netPnl) := by
  rw [← foldl_balStep_eq_prefixMin, List.foldl_map]
  rfl

theorem minBalanceV1_eq_prefixMin (cfg : Config) (groups : List (Date × List TradeV1)) :
    minBalanceV1 cfg groups =
      prefixMin cfg.accountSize
        (groups.map (fun p => (p.2.map TradeV1.netPnl).sum)) := by
  rw [← foldl_balStep_eq_prefixMin, List.foldl_map]
  rfl

/-! ### Sortedness and key facts of the day groupings -/

theorem sortTradesV2_sorted (ts : List TradeV2) :
    (sortTradesV2 ts).Pairwise tradeLe :=
  List.sorted_insertionSort tradeLe ts

theorem sortTradesV2_perm (ts : List TradeV2) : (sortTradesV2 ts).Perm ts :=
  List.perm_insertionSort tradeLe ts

theorem v1DayGroups_sorted (pairs : List (Date × TradeV1)) :
    (v1DayGroups pairs).Pairwise dayKeyLe :=
  List.sorted_insertionSort dayKeyLe _

theorem v1DayGroups_perm (pairs : List (Date × TradeV1)) :
    (v1DayGroups pairs).Perm
      ((dictGroupBy Prod.fst pairs).map (fun p => (p.1, p.2.map Prod.snd))) :=
  List.perm_insertionSort dayKeyLe _

theorem v1DayGroups_keys_nodup (pairs : List (Date × TradeV1)) :
    ((v1DayGroups pairs).map Prod.fst).Nodup := by
  have hG : (((dictGroupBy Prod.fst pairs).map
      (fun p => (p.1, p.2.map Prod.snd))).map Prod.fst).Nodup := by
    rw [List.map_map]
    exact keys_dictGroupBy_nodup Prod.fst pairs
  exact (List.Perm.map Prod.fst (v1DayGroups_perm pairs).symm).nodup hG

theorem v1DayGroups_keys_strict (pairs : List (Date × TradeV1)) :
    ((v1DayGroups pairs).map Prod.fst).Pairwise Date.LtP := by
  have hle : ((v1DayGroups pairs).map Prod.fst).Pairwise Date.LeP :=
    List.pairwise_map.mpr (v1DayGroups_sorted pairs)
  have hne : ((v1DayGroups pairs).map Prod.fst).Pairwise (· ≠ ·) :=
    v1DayGroups_keys_nodup pairs
  exact (hle.and hne).imp (fun h => Date.ltP_of_leP_of_ne h.1 h.2)

theorem mem_v1DayGroups_eq_filter {pairs : List (Date × TradeV1)}
    {p : Date × List TradeV1} (hp : p ∈ v1DayGroups pairs) :
    p.2 = (pairs.filter (fun q => decide (q.1 = p.1))).map Prod.snd := by
  have hp' : p ∈ (dictGroupBy Prod.fst pairs).map
      (fun q => (q.1, q.2.map Prod.snd)) :=
    ((v1DayGroups_perm pairs).mem_iff).mp hp
  obtain ⟨q, hq, hpq⟩ := List.mem_map.mp hp'
  subst hpq
  simp only
  rw [mem_dictGroupBy_eq_filter Prod.fst pairs hq]

theorem v1DayGroups_keys_cover {pairs : List (Date × TradeV1)} {d : Date}
    (hd : d ∈ pairs.map Prod.fst) : d ∈ (v1DayGroups pairs).map Prod.fst := by
  have h1 : d ∈ (dictGroupBy Prod.fst pairs).map Prod.fst :=
    (mem_keys_dictGroupBy Prod.fst pairs d).mpr hd
  have h2 : d ∈ (((dictGroupBy Prod.fst pairs).map
      (fun p => (p.1, p.2.map Prod.snd))).map Prod.fst) := by
    rw [List.map_map]
    exact h1
  exact (List.Perm.map Prod.fst (v1DayGroups_perm pairs)).mem_iff.mpr h2

/-! ### Filter sums through the paired view -/

theorem filter_map_sum {α : Type} (l : List α) (k : α → Date) (v : α → ℚ)
    (d : Date) :
    ((l.filter (fun a => decide (k a = d))).map v).sum
      = (((l.map (fun a => (k a, v a))).filter
          (fun q => decide (q.1 = d))).map Prod.snd).sum := by
  induction l with
  | nil => simp
  | cons a l ih =>
    by_cases h : k a = d
    · simp only [List.filter_cons, List.map_cons, h, decide_eq_true_eq]
      simp [ih]
    · simp only [List.filter_cons, List.map_cons]
      have h1 : decide (k a = d) = false := by simpa using h
      simp only [h1]
      simpa using ih

/-- v2's trade-by-trade minimum balance is never above v1's day-by-day
minimum balance: every balance v1's loop visits at a day boundary, v2's
loop also visits. -/
theorem minBalanceV2_le_minBalanceV1 {cfg : Config} {rows : List Row}
    {pairs : List (Date × TradeV1)} {ts : List TradeV2}
    (h1 : readTradesV1 rows = .ok pairs)
    (h2 : readTradesV2 rows = .ok ts) :
    minBalanceV2 cfg (sortTradesV2 ts) ≤ minBalanceV1 cfg (v1DayGroups pairs) := by
  obtain ⟨ts', hts', hmap⟩ := readTradesV1_agree rows pairs h1
  rw [h2] at hts'
  injection hts' with hts'
  subst hts'
  have hkeys : pairs.map Prod.fst = ts.map TradeV2.dateStr := by
    have h := congrArg (List.map Prod.fst) hmap
    simp only [List.map_map] at h
    exact h
  have hsums : (v1DayGroups pairs).map (fun p => (p.2.map TradeV1.netPnl).sum)
      = ((v1DayGroups pairs).map Prod.fst).map
          (fun d => (((sortTradesV2 ts).filter
            (fun t => decide (t.dateStr = d))).map TradeV2.netPnl).sum) := by
    rw [List.map_map]
    apply List.map_congr_left
    intro p hp
    calc ((p.2).map TradeV1.netPnl).sum
        = ((pairs.filter (fun q => decide (q.1 = p.1))).map
            (fun q => q.2.netPnl)).sum := by
          rw [mem_v1DayGroups_eq_filter hp, List.map_map]
          rfl
      _ = (((pairs.map (fun q => (q.1, q.2.netPnl))).filter
            (fun r => decide (r.1 = p.1))).map Prod.snd).sum :=
          filter_map_sum pairs Prod.fst (fun q => q.2.netPnl) p.1
      _ = (((ts.map (fun t => (t.dateStr, t.netPnl))).filter
            (fun r => decide (r.1 = p.1))).map Prod.snd).sum := by rw [hmap]
      _ = ((ts.filter (fun t => decide (t.dateStr = p.1))).map
            TradeV2.netPnl).sum :=
          (filter_map_sum ts TradeV2.dateStr TradeV2.netPnl p.1).symm
      _ = (((sortTradesV2 ts).filter (fun t => decide (t.dateStr = p.1))).map
            TradeV2.netPnl).sum :=
          List.Perm.sum_eq (List.Perm.map _
            (List.Perm.filter _ (sortTradesV2_perm ts).symm))
  have hdec : sortTradesV2 ts
      = (((v1DayGroups pairs).map Prod.fst).map
          (fun d => (sortTradesV2 ts).filter
            (fun t => decide (t.dateStr = d)))).flatten := by
    apply sorted_flatten_filter TradeV2.dateStr
    · have hdS : ∀ t ∈ sortTradesV2 ts, t.dateStr = t.dt.date := fun t ht =>
        readTradesV2_dateStr rows ts h2 t ((sortTradesV2_perm ts).mem_iff.mp ht)
      refine List.Pairwise.imp_of_mem ?_ (sortTradesV2_sorted ts)
      intro a b ha hb hle
      rw [hdS a ha, hdS b hb]
      exact DateTime.date_leP hle
    · exact v1DayGroups_keys_strict pairs
    · intro t ht
      apply v1DayGroups_keys_cover
      rw [hkeys]
      exact List.mem_map.mpr ⟨t, (sortTradesV2_perm ts).mem_iff.mp ht, rfl⟩
  have hflat : (sortTradesV2 ts).map TradeV2.netPnl
      = (((v1DayGroups pairs).map Prod.fst).map
          (fun d => ((sortTradesV2 ts).filter
            (fun t => decide (t.dateStr = d))).map TradeV2.netPnl)).flatten := by
    conv_lhs => rw [hdec]
    rw [List.map_flatten, List.map_map]
    rfl
  rw [minBalanceV1_eq_prefixMin, minBalanceV2_eq_prefixMin, hsums]
  have hcases := prefixMin_cases cfg.accountSize
      (((v1DayGroups pairs).map Prod.fst).map
        (fun d => (((sortTradesV2 ts).filter
          (fun t => decide (t.dateStr = d))).map TradeV2.netPnl).sum))
  rcases hcases with hc | hc
  · rw [hc]
    exact prefixMin_le_init cfg.accountSize _
  · apply prefixMin_le_mem
    rw [hflat]
    apply mem_scanl_sums
    have : (((v1DayGroups pairs).map Prod.fst).map
        (fun d => ((sortTradesV2 ts).filter
          (fun t => decide (t.dateStr = d))).map TradeV2.netPnl)).map List.sum
        = ((v1DayGroups pairs).map Prod.fst).map
            (fun d => (((sortTradesV2 ts).filter
              (fun t => decide (t.dateStr = d))).map TradeV2.netPnl).sum) := by
      rw [List.map_map]
      rfl
    rw [this]
    exact hc

/-! ### v1 day-loop results satisfy the breach equation -/

theorem v1_dayResults_prop (cfg : Config) :
    ∀ (groups : List (Date × List TradeV1)) (st : ℚ × Bool × List DayResultV1),
      (∀ r ∈ st.2.2, r.breached = decide (r.dayLoss > DAILY_LIMIT cfg)) →
      ∀ r ∈ (groups.foldl (v1DayStep cfg) st).2.2,
        r.breached = decide (r.dayLoss > DAILY_LIMIT cfg) := by
  intro groups
  induction groups with
  | nil => intro st hst r hr; exact hst r hr
  | cons g groups ih =>
    intro st hst r hr
    rw [List.foldl_cons] at hr
    refine ih _ ?_ r hr
    intro r' hr'
    simp only [v1DayStep, List.mem_append, List.mem_singleton] at hr'
    rcases hr' with h | h
    · exact hst r' h
    · subst h; rfl

/-! ### Concrete inputs used by counterexamples and witnesses -/

/-- Two trades on the same day, −300 then +300: the balance dips to 4700
mid-day and ends the day back at 5000. -/
def rowsMidday : List Row :=
  [⟨"1", "01/01/2025 10:00:00", "-300", "", ""⟩,
   ⟨"2", "01/01/2025 11:00:00", "300", "", ""⟩]

/-- The v2 trades read from `rowsMidday`. -/
def tsMidday : List TradeV2 :=
  [⟨⟨2025, 1, 1, 10, 0, 0⟩, ⟨2025, 1, 1⟩, -300, "1"⟩,
   ⟨⟨2025, 1, 1, 11, 0, 0⟩, ⟨2025, 1, 1⟩, 300, "2"⟩]

/-- The v1 day-keyed trades read from `rowsMidday`. -/
def pairsMidday : List (Date × TradeV1) :=
  [(⟨2025, 1, 1⟩, ⟨"1", -300, "01/01/2025 10:00:00"⟩),
   (⟨2025, 1, 1⟩, ⟨"2", 300, "01/01/2025 11:00:00"⟩)]

/-- v2's report on `rowsMidday`. -/
def rep2Midday : ReportV2 :=
  ⟨[⟨⟨2025, 1, 1⟩, 0, 0, false⟩], 4700, 300, false⟩

/-- v1's report on `rowsMidday`. -/
def rep1Midday : ReportV1 :=
  ⟨[⟨⟨2025, 1, 1⟩, 5000, 0, 2, 0, false⟩], 5000, 0, false⟩

/-- A row whose close time does not parse, followed by a valid row. -/
def rowsBadTime : List Row :=
  [⟨"3", "garbage", "5", "", ""⟩,
   ⟨"2", "01/01/2025 11:00:00", "300", "", ""⟩]

/-- The valid second row of `rowsBadTime` alone. -/
def rowGood : Row := ⟨"2", "01/01/2025 11:00:00", "300", "", ""⟩

/-- Two same-day rows in reverse time order (13:21 before 12:00). -/
def rowsLate : List Row :=
  [⟨"1", "01/01/2025 13:21:00", "1", "", ""⟩,
   ⟨"2", "01/01/2025 12:00:00", "2", "", ""⟩]

/-- A single day netting exactly −200 (the daily limit for the hardcoded
configuration). -/
def rows200 : List Row := [⟨"1", "02/01/2025 10:00:00", "-200", "", ""⟩]

/-- A row whose `Profit` field is non-empty but not a number, followed by a
valid row. -/
def rowsBadFloat : List Row :=
  [⟨"1", "01/01/2025 10:00:00", "abc", "", ""⟩,
   ⟨"2", "01/01/2025 11:00:00", "300", "", ""⟩]

/-! ### Claims -/

/-- C7: on an empty trade sequence the evaluator does not fail: it yields
zero day results, `minBalance` equal to the account size (so
`maxDrawdownUsed = 0`), and no violation. -/
theorem spec_C7 (rows : List Row) (h : readTradesV2 rows = .ok []) :
    analyze_csv_v2 theConfig rows = .ok ⟨[], theConfig.accountSize, 0, false⟩ := by
  rw [analyze_csv_v2_eq h]
  with_unfolding_all rfl

theorem spec_C7_witness :
    analyze_csv_v2 theConfig [] = .ok ⟨[], theConfig.accountSize, 0, false⟩ :=
  spec_C7 [] rfl

/-- C9: the claim asks that an invalid configuration (non-positive account
size, negative percentages) fail fast with a configuration error before any
evaluation. The code has no configuration validation at all: with the
account-size constant set to the non-positive value −5000, the evaluation
still runs to completion and produces an ordinary compliance report — on an
empty trade list it even reports a violation, since `maxDrawdownUsed = 0`
exceeds the negative limit −400. -/
theorem spec_C9 :
    analyze_csv_v2 ⟨-5000, 4⟩ [] = .ok ⟨[], -5000, 0, true⟩ := by
  with_unfolding_all rfl

/-- C10: a row whose `Profit` field is non-empty but not parsable as a
number makes the float conversion raise inside the row loop; the exception
is caught only by the outer catch-all, so the whole analysis aborts at that
row and no report is produced — in both files — whereas the same input
without the offending row analyzes fine. -/
theorem spec_C10 :
    analyze_csv_v2 theConfig rowsBadFloat =
      .error "could not convert string to float: abc" ∧
    analyze_csv_v1 theConfig rowsBadFloat =
      .error "could not convert string to float: abc" ∧
    analyze_csv_v2 theConfig [rowGood] =
      .ok ⟨[⟨⟨2025, 1, 1⟩, 300, 0, false⟩], 5000, 0, false⟩ := by
  refine ⟨?_, ?_, ?_⟩ <;> with_unfolding_all rfl

theorem dayResultV2_breached (cfg : Config) (d : Date) (ts : List TradeV2) :
    (dayResultV2 cfg d ts).breached =
      decide ((dayResultV2 cfg d ts).dayLoss > DAILY_LIMIT cfg) := rfl

/-- C5: in both files, a day is reported as breached exactly when its
`dayLoss` is strictly greater than the daily limit; a loss equal to the
limit is compliant. -/
theorem spec_C5 :
    (∀ (cfg : Config) (rows : List Row) (rep : ReportV2) (r : DayResultV2),
      analyze_csv_v2 cfg rows = .ok rep → r ∈ rep.dayResults →
      (r.breached = true ↔ r.dayLoss > DAILY_LIMIT cfg)) ∧
    (∀ (cfg : Config) (rows : List Row) (rep : ReportV1) (r : DayResultV1),
      analyze_csv_v1 cfg rows = .ok rep → r ∈ rep.dayResults →
      (r.breached = true ↔ r.dayLoss > DAILY_LIMIT cfg)) := by
  constructor
  · intro cfg rows rep r hrep hr
    cases hv : readTradesV2 rows with
    | error e =>
      rw [analyze_csv_v2] at hrep
      rw [hv] at hrep
      cases hrep
    | ok ts =>
      rw [analyze_csv_v2_eq hv] at hrep
      injection hrep with h
      subst h
      obtain ⟨p, hp, hrr⟩ := List.mem_map.mp hr
      subst hrr
      rw [dayResultV2_breached]
      exact decide_eq_true_iff
  · intro cfg rows rep r hrep hr
    cases hv : readTradesV1 rows with
    | error e =>
      rw [analyze_csv_v1] at hrep
      rw [hv] at hrep
      cases hrep
    | ok pairs =>
      rw [analyze_csv_v1_eq hv] at hrep
      injection hrep with h
      subst h
      have hbr := v1_dayResults_prop cfg (v1DayGroups pairs)
        (cfg.accountSize, false, []) (by intro r' hr'; cases hr') r hr
      rw [hbr]
      exact decide_eq_true_iff

/-- The single day result of `rows200`: a net of exactly −200 on the
boundary of the daily limit. -/
def dayResult200 : DayResultV2 := ⟨⟨2025, 1, 2⟩, -200, 200, false⟩

/-- v2's report on `rows200`. -/
def rep200 : ReportV2 := ⟨[dayResult200], 4800, 200, false⟩

set_option maxRecDepth 1000000 in
theorem spec_C5_witness :
    (dayResult200.breached = true ↔ dayResult200.dayLoss > DAILY_LIMIT theConfig) ∧
    dayResult200.breached = false :=
  ⟨spec_C5.1 theConfig rows200 rep200 dayResult200 (by with_unfolding_all rfl)
    (List.mem_singleton.mpr rfl), rfl⟩

/-- C6: the daily check uses a fixed base. Each v2 day result is a function
of the configuration and that day's trades alone (the per-day results are a
`map` of the per-day evaluator over the day groups, with no running
balance), and in both files the breach flag compares `dayLoss` against
`accountSize * dailyDrawdownPercent / 100` computed from the original
account size, independent of any preceding day's outcome. -/
theorem spec_C6 :
    (∀ (cfg : Config) (rows : List Row) (ts : List TradeV2) (rep : ReportV2),
      readTradesV2 rows = .ok ts → analyze_csv_v2 cfg rows = .ok rep →
      rep.dayResults =
        (v2DayGroups (sortTradesV2 ts)).map (fun p => dayResultV2 cfg p.1 p.2)) ∧
    (∀ (cfg : Config) (d : Date) (ts : List TradeV2),
      (dayResultV2 cfg d ts).breached =
        decide ((dayResultV2 cfg d ts).dayLoss >
          cfg.accountSize * (cfg.dailyDDPercent / 100))) ∧
    (∀ (cfg : Config) (rows : List Row) (rep : ReportV1) (r : DayResultV1),
      analyze_csv_v1 cfg rows = .ok rep → r ∈ rep.dayResults →
      r.breached =
        decide (r.dayLoss > cfg.accountSize * (cfg.dailyDDPercent / 100))) := by
  refine ⟨?_, ?_, ?_⟩
  · intro cfg rows ts rep h1 h2
    rw [analyze_csv_v2_eq h1] at h2
    injection h2 with h
    rw [← h]
  · intro cfg d ts
    rfl
  · intro cfg rows rep r hrep hr
    cases hv : readTradesV1 rows with
    | error e =>
      rw [analyze_csv_v1] at hrep
      rw [hv] at hrep
      cases hrep
    | ok pairs =>
      rw [analyze_csv_v1_eq hv] at hrep
      injection hrep with h
      subst h
      exact v1_dayResults_prop cfg (v1DayGroups pairs)
        (cfg.accountSize, false, []) (by intro r' hr'; cases hr') r hr

/-- The single day result of v1 on `rowsMidday`. -/
def dayResult1Midday : DayResultV1 := ⟨⟨2025, 1, 1⟩, 5000, 0, 2, 0, false⟩

set_option maxRecDepth 1000000 in
theorem spec_C6_witness :
    rep2Midday.dayResults =
      (v2DayGroups (sortTradesV2 tsMidday)).map
        (fun p => dayResultV2 theConfig p.1 p.2) ∧
    dayResult1Midday.breached =
      decide (dayResult1Midday.dayLoss >
        theConfig.accountSize * (theConfig.dailyDDPercent / 100)) :=
  ⟨spec_C6.1 theConfig rowsMidday tsMidday rep2Midday
      (by with_unfolding_all rfl) (by with_unfolding_all rfl),
   spec_C6.2.2 theConfig rowsMidday rep1Midday dayResult1Midday
      (by with_unfolding_all rfl) (List.mem_singleton.mpr rfl)⟩

/-- C8: for every row that becomes a trade, the trade's `netPnl` is the sum
`profit + commission + swap` of the parsed float fields, and an empty
field is treated as 0 — in both files. -/
theorem spec_C8 :
    floatField "" = .ok 0 ∧
    (∀ (row : Row) (t : TradeV2) (p c s : ℚ),
      floatField row.profit = .ok p → floatField row.commission = .ok c →
      floatField row.swap = .ok s → rowToTradeV2 row = .ok (some t) →
      t.netPnl = p + c + s) ∧
    (∀ (row : Row) (d : Date) (t : TradeV1) (p c s : ℚ),
      floatField row.profit = .ok p → floatField row.commission = .ok c →
      floatField row.swap = .ok s → rowToTradeV1 row = .ok (some (d, t)) →
      t.netPnl = p + c + s) := by
  refine ⟨rfl, ?_, ?_⟩
  · intro row t p c s hp hc hs h
    unfold rowToTradeV2 at h
    by_cases hid : row.id = "Total"
    · simp [hid] at h
    · simp only [if_neg hid] at h
      by_cases hct : row.closeTime = ""
      · simp [hct] at h
      · simp only [if_neg hct] at h
        cases hdt : parse_datetime row.closeTime with
        | none => rw [hdt] at h; cases h
        | some dt =>
          rw [hdt, hp, hc, hs] at h
          simp only [Except.ok.injEq, Option.some.injEq] at h
          rw [← h]
  · intro row d t p c s hp hc hs h
    unfold rowToTradeV1 at h
    by_cases hid : row.id = "Total"
    · simp [hid] at h
    · simp only [if_neg hid] at h
      by_cases hct : row.closeTime = ""
      · simp [hct] at h
      · simp only [if_neg hct] at h
        cases hdt : parse_date row.closeTime with
        | error e => rw [hdt] at h; cases h
        | ok day =>
          rw [hdt, hp, hc, hs] at h
          simp only [Except.ok.injEq, Option.some.injEq, Prod.mk.injEq] at h
          rw [← h.2]

/-- A valid row with fractional profit and commission and an empty swap. -/
def rowFrac : Row := ⟨"7", "03/01/2025 09:00:00", "1.5", "-0.5", ""⟩

/-- The trade v2 reads from `rowFrac`. -/
def tradeFrac : TradeV2 := ⟨⟨2025, 1, 3, 9, 0, 0⟩, ⟨2025, 1, 3⟩, 1, "7"⟩

set_option maxRecDepth 1000000 in
theorem spec_C8_witness :
    tradeFrac.netPnl = 3 / 2 + (-(1 / 2)) + 0 ∧ floatField "" = .ok 0 :=
  ⟨spec_C8.2.1 rowFrac tradeFrac (3 / 2) (-(1 / 2)) 0
      (by with_unfolding_all rfl) (by with_unfolding_all rfl)
      (by with_unfolding_all rfl) (by with_unfolding_all rfl),
   spec_C8.1⟩

/-! ### Row-skipping lemmas (claim C3) -/

theorem rowToTradeV2_skip {r : Row}
    (h : r.closeTime = "" ∨ parse_datetime r.closeTime = none) :
    rowToTradeV2 r = .ok none := by
  unfold rowToTradeV2
  by_cases hid : r.id = "Total"
  · simp [hid]
  · rcases h with h | h
    · simp [hid, h]
    · by_cases hct : r.closeTime = ""
      · simp [hid, hct]
      · simp [hid, hct, h]

theorem readTradesV2_skip (pre post : List Row) (r : Row)
    (h : rowToTradeV2 r = .ok none) :
    readTradesV2 (pre ++ r :: post) = readTradesV2 (pre ++ post) := by
  induction pre with
  | nil => simp only [List.nil_append, readTradesV2, h]
  | cons a pre ih => simp only [List.cons_append, readTradesV2, List.append_eq, ih]

theorem rowToTradeV1_skip_empty {r : Row} (h : r.closeTime = "") :
    rowToTradeV1 r = .ok none := by
  unfold rowToTradeV1
  by_cases hid : r.id = "Total" <;> simp [hid, h]

theorem readTradesV1_skip (pre post : List Row) (r : Row)
    (h : rowToTradeV1 r = .ok none) :
    readTradesV1 (pre ++ r :: post) = readTradesV1 (pre ++ post) := by
  induction pre with
  | nil => simp only [List.nil_append, readTradesV1, h]
  | cons a pre ih => simp only [List.cons_append, readTradesV1, List.append_eq, ih]

theorem readTradesV1_abort (pre post : List Row) (r : Row)
    {ps : List (Date × TradeV1)} (hok : readTradesV1 pre = .ok ps)
    (hid : r.id ≠ "Total") (hct : r.closeTime ≠ "")
    (hdt : strptimeDMY r.closeTime = none) :
    readTradesV1 (pre ++ r :: post) =
      .error ("time data " ++ r.closeTime ++
        " does not match format %d/%m/%Y %H:%M:%S") := by
  have hrow : rowToTradeV1 r = .error ("time data " ++ r.closeTime ++
      " does not match format %d/%m/%Y %H:%M:%S") := by
    unfold rowToTradeV1
    rw [if_neg hid, if_neg hct]
    unfold parse_date
    rw [hdt]
  induction pre generalizing ps with
  | nil => simp only [List.nil_append, readTradesV1, hrow]
  | cons a pre ih =>
    rw [readTradesV1] at hok
    cases hra : rowToTradeV1 a with
    | error e => rw [hra] at hok; cases hok
    | ok tOpt =>
      rw [hra] at hok
      cases tOpt with
      | none =>
        simp only [List.cons_append, readTradesV1, List.append_eq, hra]
        exact ih hok
      | some p =>
        cases hrest : readTradesV1 pre with
        | error e => rw [hrest] at hok; cases hok
        | ok ps' =>
          simp only [List.cons_append, readTradesV1, List.append_eq, hra, ih hrest]

set_option maxRecDepth 1000000 in
/-- C1 counterexample: on two same-day trades of −300 then +300 the v1
max-drawdown loop — one of the two cited implementations — reports
`minBalance = 5000`, while the minimum over all chronological trade
prefixes of `accountSize` plus the prefix PnL sum is 4700 (the mid-day
trough), so the claimed equality fails for v1. -/
theorem spec_C1_counterexample :
    (readTradesV1 rowsMidday).map (fun ps => ps.map (fun p => p.2.netPnl)) =
      .ok [-300, 300] ∧
    (analyze_csv_v1 theConfig rowsMidday).map ReportV1.minBalance = .ok 5000 ∧
    prefixMin theConfig.accountSize [-300, 300] = 4700 ∧
    (5000 : ℚ) ≠ 4700 := by
  refine ⟨?_, ?_, ?_, ?_⟩
  · with_unfolding_all rfl
  · with_unfolding_all rfl
  · with_unfolding_all rfl
  · with_unfolding_all decide

/-- C1 (amended): v2's Maximum Drawdown Pass applies every trade's `netPnl`
in strict chronological trade-level order, so its `minBalance` is the
minimum over all trade prefixes of `accountSize` plus the prefix PnL sum
(including mid-day troughs) and `maxDrawdownUsed = accountSize − minBalance`;
v1's pass instead applies the PnL once per day, so its `minBalance` is the
minimum over day prefixes only (end-of-day balances) and can miss mid-day
troughs, with the same `maxDrawdownUsed` relation. -/
theorem spec_C1_amended (cfg : Config) (rows : List Row)
    (ts : List TradeV2) (pairs : List (Date × TradeV1))
    (rep2 : ReportV2) (rep1 : ReportV1)
    (h2r : readTradesV2 rows = .ok ts) (h2 : analyze_csv_v2 cfg rows = .ok rep2)
    (h1r : readTradesV1 rows = .ok pairs)
    (h1 : analyze_csv_v1 cfg rows = .ok rep1) :
    rep2.minBalance =
      prefixMin cfg.accountSize ((sortTradesV2 ts).map TradeV2.netPnl) ∧
    rep2.maxDrawdownUsed = cfg.accountSize - rep2.minBalance ∧
    rep1.minBalance =
      prefixMin cfg.accountSize
        ((v1DayGroups pairs).map (fun p => (p.2.map TradeV1.netPnl).sum)) ∧
    rep1.maxDrawdownUsed = cfg.accountSize - rep1.minBalance := by
  rw [analyze_csv_v2_eq h2r] at h2
  injection h2 with h2
  subst h2
  rw [analyze_csv_v1_eq h1r] at h1
  injection h1 with h1
  subst h1
  exact ⟨minBalanceV2_eq_prefixMin cfg _, rfl, minBalanceV1_eq_prefixMin cfg _, rfl⟩

set_option maxRecDepth 1000000 in
theorem spec_C1_witness :
    rep2Midday.minBalance =
      prefixMin theConfig.accountSize
        ((sortTradesV2 tsMidday).map TradeV2.netPnl) ∧
    rep2Midday.maxDrawdownUsed = theConfig.accountSize - rep2Midday.minBalance ∧
    rep1Midday.minBalance =
      prefixMin theConfig.accountSize
        ((v1DayGroups pairsMidday).map (fun p => (p.2.map TradeV1.netPnl).sum)) ∧
    rep1Midday.maxDrawdownUsed = theConfig.accountSize - rep1Midday.minBalance :=
  spec_C1_amended theConfig rowsMidday tsMidday pairsMidday rep2Midday rep1Midday
    (by with_unfolding_all rfl) (by with_unfolding_all rfl)
    (by with_unfolding_all rfl) (by with_unfolding_all rfl)

set_option maxRecDepth 1000000 in
/-- C2 counterexample: on two same-day trades of −300 then +300 the two
files disagree: v1's day-by-day balance loop reports `minBalance = 5000`
while v2's trade-by-trade loop reports 4700. -/
theorem spec_C2_counterexample :
    (analyze_csv_v1 theConfig rowsMidday).map ReportV1.minBalance = .ok 5000 ∧
    (analyze_csv_v2 theConfig rowsMidday).map ReportV2.minBalance = .ok 4700 ∧
    (5000 : ℚ) ≠ 4700 := by
  refine ⟨?_, ?_, ?_⟩
  · with_unfolding_all rfl
  · with_unfolding_all rfl
  · with_unfolding_all decide

/-- C2 (amended): the two files' Max Drawdown computations are not
equivalent; what holds is the inequality: whenever both analyses succeed on
the same input, v2's trade-by-trade `minBalance` is at most v1's day-by-day
`minBalance` (every balance v1 inspects at a day boundary is also visited
by v2's trade-level loop), with equality in general failing on mid-day
troughs. -/
theorem spec_C2_amended (cfg : Config) (rows : List Row)
    (rep1 : ReportV1) (rep2 : ReportV2)
    (h1 : analyze_csv_v1 cfg rows = .ok rep1)
    (h2 : analyze_csv_v2 cfg rows = .ok rep2) :
    rep2.minBalance ≤ rep1.minBalance := by
  cases hr1 : readTradesV1 rows with
  | error e => rw [analyze_csv_v1, hr1] at h1; cases h1
  | ok pairs =>
    cases hr2 : readTradesV2 rows with
    | error e => rw [analyze_csv_v2, hr2] at h2; cases h2
    | ok ts =>
      rw [analyze_csv_v1_eq hr1] at h1
      injection h1 with h1
      subst h1
      rw [analyze_csv_v2_eq hr2] at h2
      injection h2 with h2
      subst h2
      exact minBalanceV2_le_minBalanceV1 hr1 hr2

set_option maxRecDepth 1000000 in
theorem spec_C2_witness : rep2Midday.minBalance ≤ rep1Midday.minBalance :=
  spec_C2_amended theConfig rowsMidday rep1Midday rep2Midday
    (by with_unfolding_all rfl) (by with_unfolding_all rfl)

set_option maxRecDepth 1000000 in
/-- C3 counterexample: a row whose `Close Time` is the unparsable string
`"garbage"` makes v1's `parse_date` raise; the error surfaces through the
outer catch-all and the whole evaluation aborts — the following valid row
is never processed and no report is produced. -/
theorem spec_C3_counterexample :
    analyze_csv_v1 theConfig rowsBadTime =
      .error "time data garbage does not match format %d/%m/%Y %H:%M:%S" := by
  with_unfolding_all rfl

/-- C3 (amended): in v2, a row whose close time is empty or unparsable is
skipped and the analysis of the remaining rows is unchanged; in v1 only an
*empty* close time is skipped, while an unparsable one aborts the whole
evaluation with the `strptime` error. -/
theorem spec_C3_amended :
    (∀ (cfg : Config) (pre post : List Row) (r : Row),
      r.closeTime = "" ∨ parse_datetime r.closeTime = none →
      analyze_csv_v2 cfg (pre ++ r :: post) = analyze_csv_v2 cfg (pre ++ post)) ∧
    (∀ (pre post : List Row) (r : Row), r.closeTime = "" →
      readTradesV1 (pre ++ r :: post) = readTradesV1 (pre ++ post)) ∧
    (∀ (pre post : List Row) (r : Row) (ps : List (Date × TradeV1)),
      readTradesV1 pre = .ok ps → r.id ≠ "Total" → r.closeTime ≠ "" →
      strptimeDMY r.closeTime = none →
      readTradesV1 (pre ++ r :: post) =
        .error ("time data " ++ r.closeTime ++
          " does not match format %d/%m/%Y %H:%M:%S")) := by
  refine ⟨?_, ?_, ?_⟩
  · intro cfg pre post r h
    unfold analyze_csv_v2
    rw [readTradesV2_skip pre post r (rowToTradeV2_skip h)]
  · intro pre post r h
    exact readTradesV1_skip pre post r (rowToTradeV1_skip_empty h)
  · intro pre post r ps hok hid hct hdt
    exact readTradesV1_abort pre post r hok hid hct hdt

/-- The row of `rowsBadTime` with the unparsable close time. -/
def rowBadTime : Row := ⟨"3", "garbage", "5", "", ""⟩

set_option maxRecDepth 1000000 in
theorem spec_C3_witness :
    analyze_csv_v2 theConfig rowsBadTime = analyze_csv_v2 theConfig [rowGood] ∧
    readTradesV1 [rowBadTime] =
      .error "time data garbage does not match format %d/%m/%Y %H:%M:%S" :=
  ⟨spec_C3_amended.1 theConfig [] [rowGood] rowBadTime
      (Or.inr (by with_unfolding_all rfl)),
   spec_C3_amended.2.2 [] [] rowBadTime [] rfl (by decide) (by decide)
      (by with_unfolding_all rfl)⟩

set_option maxRecDepth 1000000 in
/-- C4 counterexample: v1 never sorts the trades themselves; on two
same-day rows whose close times are 13:21 and then 12:00, the sequence
v1's evaluation visits keeps the 13:21 trade before the 12:00 trade, so
that sequence is not totally ordered ascending by close time. -/
theorem spec_C4_counterexample :
    v1TradeSequence rowsLate =
      .ok [⟨"1", 1, "01/01/2025 13:21:00"⟩, ⟨"2", 2, "01/01/2025 12:00:00"⟩] ∧
    strptimeDMY "01/01/2025 13:21:00" = some ⟨2025, 1, 1, 13, 21, 0⟩ ∧
    strptimeDMY "01/01/2025 12:00:00" = some ⟨2025, 1, 1, 12, 0, 0⟩ ∧
    DateTime.LtP ⟨2025, 1, 1, 12, 0, 0⟩ ⟨2025, 1, 1, 13, 21, 0⟩ := by
  refine ⟨?_, ?_, ?_, ?_⟩
  · with_unfolding_all rfl
  · rfl
  · rfl
  · decide

/-- C4 (amended): v2's normalizer output (the sorted trade list) is totally
ordered ascending by `closeTime`, and records with equal `closeTime` keep
their input order (a pair that appears in input order stays a sublist of
the sorted output); v1 guarantees day-level order only: within a day its
buckets preserve input order, not close-time order. -/
theorem spec_C4_amended :
    (∀ (rows : List Row) (ts : List TradeV2), readTradesV2 rows = .ok ts →
      (sortTradesV2 ts).Sorted tradeLe) ∧
    (∀ (rows : List Row) (ts : List TradeV2) (a b : TradeV2),
      readTradesV2 rows = .ok ts → a.dt = b.dt → [a, b].Sublist ts →
      [a, b].Sublist (sortTradesV2 ts)) ∧
    (∀ (pairs : List (Date × TradeV1)) (p : Date × List TradeV1),
      p ∈ v1DayGroups pairs →
      p.2 = (pairs.filter (fun q => decide (q.1 = p.1))).map Prod.snd) := by
  refine ⟨?_, ?_, ?_⟩
  · intro rows ts _
    exact sortTradesV2_sorted ts
  · intro rows ts a b _ hdt hsub
    exact List.pair_sublist_insertionSort (Or.inr hdt) hsub
  · intro pairs p hp
    exact mem_v1DayGroups_eq_filter hp

/-- Two rows with identical close times, in input order. -/
def tTieA : TradeV2 := ⟨⟨2025, 1, 1, 10, 0, 0⟩, ⟨2025, 1, 1⟩, 1, "1"⟩

/-- The second of the two tied trades. -/
def tTieB : TradeV2 := ⟨⟨2025, 1, 1, 10, 0, 0⟩, ⟨2025, 1, 1⟩, 2, "2"⟩

/-- Input rows producing the two tied trades. -/
def rowsTie : List Row :=
  [⟨"1", "01/01/2025 10:00:00", "1", "", ""⟩,
   ⟨"2", "01/01/2025 10:00:00", "2", "", ""⟩]

set_option maxRecDepth 1000000 in
theorem spec_C4_witness :
    [tTieA, tTieB].Sublist (sortTradesV2 [tTieA, tTieB]) ∧
    (sortTradesV2 [tTieA, tTieB]).Sorted tradeLe :=
  ⟨spec_C4_amended.2.1 rowsTie [tTieA, tTieB] tTieA tTieB
      (by with_unfolding_all rfl) rfl (List.Sublist.refl _),
   spec_C4_amended.1 rowsTie [tTieA, tTieB] (by with_unfolding_all rfl)⟩
